import Mathlib

set_option maxHeartbeats 1600000
set_option maxRecDepth 100000

namespace CustomEmbeddings

/-!
Shallow embedding of the pattern-classification and embedding engine of the
repository (files embeddings.py, log_patterns.py, add_pattern.py,
llm_parser.py).  The Python `re` module is external to the repository; the
fragment of it the repository exercises (`re.match` over the regexes appearing
in the pattern store: literal characters, character classes \d \w \s and `.`,
concatenation, alternation, Kleene star/plus, and the end anchor `$`) is
modelled here by a total derivative-style matcher with Python semantics:
`re.match` tests whether the regex matches a PREFIX of the line starting at
position 0, and `$` asserts end of the subject string.  A regex string that
fails to compile is represented by a `RegexSpec` whose `compiled` field is
`none`; `re.match` against it raises `re.error`, which the code under test
catches.
-/

/-- Character classes of the modelled regex fragment.  `dot` is Python `.`
(any character except newline), `digit` is ASCII `\d`, `word` is ASCII `\w`,
`space` is Python `\s` on ASCII input. -/
inductive CharCls where
  | dot
  | digit
  | word
  | space
  deriving DecidableEq

/-- Membership test of a character in a character class, by code point. -/
def CharCls.test : CharCls → Char → Bool
  | .dot, c => !(c == '\n')
  | .digit, c => decide ('0'.toNat ≤ c.toNat) && decide (c.toNat ≤ '9'.toNat)
  | .word, c =>
      (decide ('a'.toNat ≤ c.toNat) && decide (c.toNat ≤ 'z'.toNat)) ||
      (decide ('A'.toNat ≤ c.toNat) && decide (c.toNat ≤ 'Z'.toNat)) ||
      (decide ('0'.toNat ≤ c.toNat) && decide (c.toNat ≤ '9'.toNat)) ||
      c == '_'
  | .space, c =>
      c == ' ' || c == '\t' || c == '\n' || c == '\x0b' || c == '\x0c' || c == '\r'

/-- Abstract syntax of the modelled regex fragment.  `eol` is the `$` anchor;
`void` is the empty language (it arises from derivatives and from the
translation of impossible branches). -/
inductive Regex where
  | void
  | eps
  | char (c : Char)
  | cls (k : CharCls)
  | seq (r1 r2 : Regex)
  | alt (r1 r2 : Regex)
  | star (r : Regex)
  | eol
  deriving DecidableEq

/-- Nullability: can the regex match the empty string at the current position?
`atEnd` records whether the current position is the end of the subject string,
which is what the `$` anchor tests. -/
def nul (atEnd : Bool) : Regex → Bool
  | .void => false
  | .eps => true
  | .char _ => false
  | .cls _ => false
  | .seq r1 r2 => nul atEnd r1 && nul atEnd r2
  | .alt r1 r2 => nul atEnd r1 || nul atEnd r2
  | .star _ => true
  | .eol => atEnd

/-- Brzozowski derivative of a regex by one character.  The position after a
consumed character is never the end-of-string position of a pending `$`, so
the nullability test inside the `seq` case uses `atEnd = false`. -/
def deriv (r : Regex) (c : Char) : Regex :=
  match r with
  | .void => .void
  | .eps => .void
  | .eol => .void
  | .char d => if d = c then .eps else .void
  | .cls k => if k.test c then .eps else .void
  | .seq r1 r2 => .alt (.seq (deriv r1 c) r2) (if nul false r1 then deriv r2 c else .void)
  | .alt r1 r2 => .alt (deriv r1 c) (deriv r2 c)
  | .star r1 => .seq (deriv r1 c) (.star r1)

/-- Python `re.match` on the modelled fragment: does the regex match some
prefix of the subject, with `$` asserting the end of the whole subject? -/
def pmatch (r : Regex) : List Char → Bool
  | [] => nul true r
  | c :: s => nul false r || pmatch (deriv r c) s

/-- Does the regex mention the `$` anchor anywhere? -/
def hasEol : Regex → Bool
  | .void => false
  | .eps => false
  | .char _ => false
  | .cls _ => false
  | .seq r1 r2 => hasEol r1 || hasEol r2
  | .alt r1 r2 => hasEol r1 || hasEol r2
  | .star r1 => hasEol r1
  | .eol => true

/-- Translation of a literal string into a regex (concatenation of its
characters). -/
def rstr (s : String) : Regex :=
  s.data.foldr (fun c r => .seq (.char c) r) .eps

/-- Translation of the regex postfix `+`. -/
def rplus (r : Regex) : Regex := .seq r (.star r)

/-- A stored regex string together with the result of `re.compile` on it:
`compiled = none` models a string rejected by the regex engine (`re.error`),
`compiled = some r` models a string compiling to the regex `r` of the
modelled fragment. -/
structure RegexSpec where
  src : String
  compiled : Option Regex
  deriving DecidableEq

/-- The result channel of a Python expression that may raise `re.error`. -/
inductive PyResult (α : Type) where
  | ok (a : α)
  | reError

/-- Python `re.match(regex, line)`: raises `re.error` when the regex string
does not compile, otherwise tests the compiled regex against the line with
prefix semantics. -/
def reMatchPy (rx : RegexSpec) (line : String) : PyResult Bool :=
  match rx.compiled with
  | none => .reError
  | some r => .ok (pmatch r line.data)

/-- Data unit of log_patterns.py (dataclass LogPattern, lines 7-13). -/
structure LogPattern where
  id : Nat
  regex : RegexSpec
  utility_name : String
  is_error : Bool
  need_reviewing : Bool := true
  deriving DecidableEq

/-- LogPattern.matches (log_patterns.py lines 15-20): `re.match` wrapped in
`try/except re.error`, the except branch returning False. -/
def LogPattern.matches (p : LogPattern) (line : String) : Bool :=
  match reMatchPy p.regex line with
  | .reError => false
  | .ok b => b

/-- Evaluating the call `pattern.matches(line)` as a Python expression:
`matches` is total (it catches `re.error` internally, log_patterns.py lines
17-20), so the call itself never raises. -/
def matchesPy (p : LogPattern) (line : String) : PyResult Bool :=
  .ok (p.matches line)

/-- The warning text printed by the `except re.error` branch of parse_line
(add_pattern.py line 41). -/
def invalidWarning (p : LogPattern) : String :=
  "Warning: Invalid regex pattern in database: " ++ p.regex.src

/-- parse_line (add_pattern.py lines 34-42).  The first component is the
returned pattern; the second collects the warnings printed by the
`except re.error` branch, which fires only when the expression
`pattern.matches(line)` raises. -/
def parse_line (line : String) : List LogPattern → Option LogPattern × List String
  | [] => (none, [])
  | p :: ps =>
    match matchesPy p line with
    | .reError =>
        let r := parse_line line ps
        (r.1, invalidWarning p :: r.2)
    | .ok true => (some p, [])
    | .ok false => parse_line line ps

/-- The value parse_line returns to its caller (the classification result). -/
def classify (line : String) (patterns : List LogPattern) : Option LogPattern :=
  (parse_line line patterns).1

/-! ### EmbeddingGenerator (embeddings.py) -/

/-- Distinct elements of a list of strings, keeping the first occurrence of
each (the key order of a Python dict built by repeated insertion,
embeddings.py lines 20-24). -/
def distinctFirst : List String → List String
  | [] => []
  | u :: us => u :: (distinctFirst us).filter (fun v => !(v = u : Bool))

/-- The distinct utility names of a pattern list, in dict insertion order. -/
def utilNames (patterns : List LogPattern) : List String :=
  distinctFirst (patterns.map (fun p => p.utility_name))

/-- The pattern group of one utility: the (regex, is_error) pairs of its
patterns in store order (embeddings.py line 24). -/
def patternsOf (patterns : List LogPattern) (u : String) : List (RegexSpec × Bool) :=
  (patterns.filter (fun p => p.utility_name = u)).map (fun p => (p.regex, p.is_error))

/-- The dict `_patterns_by_utility` as an association list in key insertion
order (embeddings.py lines 20-24, 28). -/
def patternsByUtility (patterns : List LogPattern) : List (String × List (RegexSpec × Bool)) :=
  (utilNames patterns).map (fun u => (u, patternsOf patterns u))

/-- Lexicographic comparison of character lists by code point, the order
Python `sorted` uses on strings. -/
def lexLe : List Char → List Char → Bool
  | [], _ => true
  | _ :: _, [] => false
  | c :: cs, d :: ds =>
      if c.toNat < d.toNat then true
      else if c.toNat = d.toNat then lexLe cs ds
      else false

/-- Python string comparison, as a proposition. -/
def StrLe (a b : String) : Prop := lexLe a.data b.data = true

instance : DecidableRel StrLe := fun a b =>
  inferInstanceAs (Decidable (lexLe a.data b.data = true))

/-- Python `sorted` applied to the distinct utility names (embeddings.py line
27): a sort of the distinct names under string comparison.  On a list without
duplicates every correct sort returns the same list, so insertion sort models
`sorted` faithfully here. -/
def sortedUtilities (patterns : List LogPattern) : List String :=
  List.insertionSort StrLe (utilNames patterns)

/-- Index of a string in a list (the enumeration position assigned by
`{name: idx for idx, name in enumerate(sorted(...))}`, embeddings.py line
27). -/
def idxOfStr : List String → String → Nat
  | [], _ => 0
  | v :: vs, u => if v = u then 0 else idxOfStr vs u + 1

/-- The dict `_utility_mapping` as a function on utility names. -/
def utilityIndex (patterns : List LogPattern) (u : String) : Nat :=
  idxOfStr (sortedUtilities patterns) u

/-- EmbeddingGenerator.dimension (embeddings.py lines 30-33): the number of
distinct utilities. -/
def dimension (patterns : List LogPattern) : Nat :=
  (sortedUtilities patterns).length

/-- Inner loop of generate_embedding over one utility group (embeddings.py
lines 64-74): first pattern of the group matching the line, if any.  A regex
failing to compile raises `re.error`, caught by `except re.error: continue`,
so such a pattern is passed over exactly like a non-matching one. -/
def firstMatch (pats : List (RegexSpec × Bool)) (line : String) : Option (RegexSpec × Bool) :=
  pats.find? (fun pr =>
    match reMatchPy pr.1 line with
    | .reError => false
    | .ok b => b)

/-- Contribution of one line to one utility coordinate: 1 when the first
matching pattern of the group carries is_error = true, else 0. -/
def errCountLine (pats : List (RegexSpec × Bool)) (line : String) : Nat :=
  match firstMatch pats line with
  | some (_, true) => 1
  | _ => 0

/-- Python `line.strip()` is empty, i.e. the line is blank: every character
is whitespace. -/
def isBlank (line : String) : Bool :=
  line.data.all (CharCls.space.test)

/-- Increment one coordinate of the embedding vector
(`embedding[utility_idx] += 1`, embeddings.py line 70). -/
def bump (v : List Nat) (i : Nat) : List Nat :=
  v.set i (v.getD i 0 + 1)

/-- Body of the per-utility loop of generate_embedding (embeddings.py lines
61-74): when the first pattern of the group matching the line is
error-flagged, increment that utility's coordinate, else leave the vector
unchanged. -/
def groupStep (idx : String → Nat) (line : String) (e : List Nat)
    (g : String × List (RegexSpec × Bool)) : List Nat :=
  match firstMatch g.2 line with
  | some (_, true) => bump e (idx g.1)
  | _ => e

/-- Body of the per-line loop of generate_embedding (embeddings.py lines
56-74): skip a blank line, otherwise walk the utility groups with
groupStep. -/
def lineStep (groups : List (String × List (RegexSpec × Bool))) (idx : String → Nat)
    (emb : List Nat) (line : String) : List Nat :=
  if isBlank line then emb
  else groups.foldl (groupStep idx line) emb

/-- generate_embedding on an already-split list of lines: fold the per-line
step over a zero vector of the snapshot's dimension. -/
def embedLines (patterns : List LogPattern) (lines : List String) : List Nat :=
  lines.foldl (lineStep (patternsByUtility patterns) (utilityIndex patterns))
    (List.replicate (dimension patterns) 0)

/-- Split a character list at newline characters; the result always has one
segment more than the number of newlines. -/
def splitNl : List Char → List (List Char)
  | [] => [[]]
  | c :: cs =>
    match splitNl cs with
    | [] => [[]]
    | seg :: rest => if c = '\n' then [] :: seg :: rest else (c :: seg) :: rest

/-- Python `str.splitlines` on newline-separated text: split at newlines and
drop the final segment when it is empty (so a trailing newline produces no
extra line and the empty string has no lines).  The repository's logs are
newline-separated; Python also splits at rarer boundary characters, which are
not modelled. -/
def pySplitlines (s : String) : List String :=
  (if (splitNl s.data).getLast? = some [] then (splitNl s.data).dropLast
   else splitNl s.data).map (fun cs => ⟨cs⟩)

/-- EmbeddingGenerator.generate_embedding (embeddings.py lines 40-76), with
the error counts as natural numbers (the numpy vector holds the same counts).
The generator's state built by _initialize_mappings (lines 14-28) is a pure
function of the pattern-store snapshot, so the snapshot list itself is the
argument. -/
def generate_embedding (patterns : List LogPattern) (log_content : String) : List Nat :=
  embedLines patterns (pySplitlines log_content)

/-- Concatenation of a list of lines into one log text, separated by
newlines. -/
def joinLines : List String → String
  | [] => ""
  | [l] => l
  | l :: ls => l ++ "\n" ++ joinLines ls

/-- Coordinate-wise sum of two embedding vectors. -/
def addVec (a b : List Nat) : List Nat :=
  List.zipWith (fun x y => x + y) a b

/-! ### Pattern ingestion (llm_parser.py, add_pattern.py) -/

/-- validate_regex (add_pattern.py lines 58-122), reduced to its returned
boolean: true exactly when the proposed regex string compiles and matches the
triggering line (the printed diagnostics do not affect the result). -/
def validate_regex (pattern : RegexSpec) (line : String) : Bool :=
  match pattern.compiled with
  | none => false
  | some r => pmatch r line.data

/-- LLMParser.analyze_line_with_llm (llm_parser.py lines 82-148) after the
oracle has produced a structured suggestion (a regex string and a utility
name; obtaining it over the network and JSON decoding are external).  The
function validates the suggestion: a regex that fails to compile raises
`re.error`, caught at lines 143-145 returning None; a regex that does not
match the line returns None (lines 129-131); otherwise the triple is returned
with the error flag hard-coded to False (line 133). -/
def analyze_line_with_llm (suggestion : RegexSpec × String) (line : String) :
    Option (RegexSpec × String × Bool) :=
  match suggestion.1.compiled with
  | none => none
  | some r => if pmatch r line.data then some (suggestion.1, suggestion.2, false) else none

/-- In-memory state of one processing session of LLMParser (llm_parser.py):
the pattern store content, the id the store will assign next, the cached
pattern list self._patterns, and the session's proposed-regex set
new_patterns (a set of regex strings, line 160). -/
structure Session where
  store : List LogPattern
  nextId : Nat
  cache : List LogPattern
  new_patterns : List String

/-- LLMParser._update_patterns (llm_parser.py lines 42-54): insert the
pattern into the store with need_reviewing=True, append the same pattern to
the cache, and return the new id. -/
def update_patterns (s : Session) (regex : RegexSpec) (utility_name : String)
    (is_error : Bool) : Session × Nat :=
  let p : LogPattern :=
    { id := s.nextId, regex := regex, utility_name := utility_name,
      is_error := is_error, need_reviewing := true }
  ({ s with store := s.store ++ [p], nextId := s.nextId + 1, cache := s.cache ++ [p] }, s.nextId)

/-- The new-pattern registration block of process_unprocessed_log
(llm_parser.py lines 196-207), entered with the validated triple returned by
analyze_line_with_llm: a regex string already proposed in this session is
skipped (no store write, nothing returned, only a message printed); otherwise
the regex is recorded in the session set and written through
_update_patterns, whose id is the value bound by the branch. -/
def register_pattern (s : Session) (regex : RegexSpec) (utility_name : String)
    (is_error : Bool) : Session × Option Nat :=
  if regex.src ∈ s.new_patterns then (s, none)
  else
    let s2 := { s with new_patterns := regex.src :: s.new_patterns }
    let r := update_patterns s2 regex utility_name is_error
    (r.1, some r.2)

/-- One iteration of the per-line loop of process_unprocessed_log
(llm_parser.py lines 163-211) for a non-blank line: try the cached patterns
first (first match wins, lines 174-181); on a miss consult the oracle through
analyze_line_with_llm and register the validated result.  The returned
option is the id bound at line 200, present only when a pattern was written. -/
def process_line (s : Session) (line : String) (suggestion : RegexSpec × String) :
    Session × Option Nat :=
  match (parse_line line s.cache).1 with
  | some _ => (s, none)
  | none =>
    match analyze_line_with_llm suggestion line with
    | none => (s, none)
    | some res => register_pattern s res.1 res.2.1 res.2.2

/-! ### The concrete scenario of spec §8

Python `re.match` anchors at position 0, where a leading `^` always holds,
so the leading `^` of the stored regex strings translates to nothing; a
capturing group only brackets its body for boolean matching. -/

/-- Compiled form of `^userdel\[\d+\]: delete user '(.*)'$`. -/
def userdelRx : Regex :=
  .seq (rstr "userdel[")
    (.seq (rplus (.cls .digit))
      (.seq (rstr "]: delete user \x27")
        (.seq (.star (.cls .dot)) (.seq (.char '\x27') .eol))))

/-- Compiled form of `^Building target platforms: (\w+)$`. -/
def buildRx : Regex :=
  .seq (rstr "Building target platforms: ") (.seq (rplus (.cls .word)) .eol)

def userdelPattern : LogPattern :=
  { id := 1,
    regex := { src := "^userdel\\[\\d+\\]: delete user \x27(.*)\x27$",
               compiled := some userdelRx },
    utility_name := "userdel", is_error := false }

def buildPattern : LogPattern :=
  { id := 2,
    regex := { src := "^Building target platforms: (\\w+)$", compiled := some buildRx },
    utility_name := "build", is_error := false }

def scenarioPatterns : List LogPattern := [userdelPattern, buildPattern]

def scenarioLine1 : String := "<86>May 16 05:13:18 userdel[616177]: delete user \x27rooter\x27"

def scenarioLine2 : String := "Building target platforms: x86_64"

def scenarioLog : String := scenarioLine1 ++ "\n" ++ scenarioLine2

/-! ### Concrete inputs used to witness the claims -/

/-- A pattern set whose two error-flagged patterns, owned by distinct
utilities, both match the line "alphabet". -/
def twoUtilityPatterns : List LogPattern :=
  [ { id := 1, regex := { src := "alpha", compiled := some (rstr "alpha") },
      utility_name := "alpha", is_error := true },
    { id := 2, regex := { src := "al", compiled := some (rstr "al") },
      utility_name := "beta", is_error := true } ]

/-- A pattern set with utilities gcc, make and npm, interleaved out of
alphabetical order. -/
def gmnPatterns : List LogPattern :=
  [ { id := 1, regex := { src := "make", compiled := some (rstr "make") },
      utility_name := "make", is_error := true },
    { id := 2, regex := { src := "gcc:", compiled := some (rstr "gcc:") },
      utility_name := "gcc", is_error := true },
    { id := 3, regex := { src := "npm ERR!", compiled := some (rstr "npm ERR!") },
      utility_name := "npm", is_error := true },
    { id := 4, regex := { src := "gcc2", compiled := some (rstr "gcc2") },
      utility_name := "gcc", is_error := false } ]

/-- A pattern whose stored regex string does not compile. -/
def badPattern : LogPattern :=
  { id := 7, regex := { src := "(unclosed", compiled := none },
    utility_name := "gcc", is_error := true }

/-- A pattern matching every line starting with "boom". -/
def boomPattern : LogPattern :=
  { id := 8, regex := { src := "boom", compiled := some (rstr "boom") },
    utility_name := "boom", is_error := false }

/-- Two patterns that both match the line "alphabet", stored with ids 1 and
2. -/
def overlapPatterns : List LogPattern :=
  [ { id := 1, regex := { src := "alph", compiled := some (rstr "alph") },
      utility_name := "first", is_error := false },
    { id := 2, regex := { src := "alpha", compiled := some (rstr "alpha") },
      utility_name := "second", is_error := true } ]

/-- A session with empty store, cache and proposal set. -/
def emptySession : Session :=
  { store := [], nextId := 0, cache := [], new_patterns := [] }

/-- A compiling proposal regex. -/
def rxBoom : RegexSpec := { src := "^boom$", compiled := some (.seq (rstr "boom") .eol) }

/-- A non-compiling proposal regex (the spec example "(unclosed"). -/
def rxUnclosed : RegexSpec := { src := "(unclosed", compiled := none }


/-! ### Supporting lemmas -/

theorem nul_mono {r : Regex} (h : nul false r = true) : nul true r = true := by
  induction r with
  | void => simp [nul] at h
  | eps => simp [nul]
  | char c => simp [nul] at h
  | cls k => simp [nul] at h
  | seq r1 r2 ih1 ih2 =>
      simp only [nul, Bool.and_eq_true] at h ⊢
      exact ⟨ih1 h.1, ih2 h.2⟩
  | alt r1 r2 ih1 ih2 =>
      simp only [nul, Bool.or_eq_true] at h ⊢
      rcases h with h | h
      · exact Or.inl (ih1 h)
      · exact Or.inr (ih2 h)
  | star r1 ih => simp [nul]
  | eol => simp [nul] at h

/-- A regex that is nullable away from the end of the subject matches a prefix
of every subject. -/
theorem pmatch_of_nul {r : Regex} (h : nul false r = true) :
    ∀ s : List Char, pmatch r s = true := by
  intro s
  cases s with
  | nil => simpa [pmatch] using nul_mono h
  | cons c s => simp [pmatch, h]

theorem hasEol_deriv {r : Regex} (h : hasEol r = false) (c : Char) :
    hasEol (deriv r c) = false := by
  induction r with
  | void => simp [deriv, hasEol]
  | eps => simp [deriv, hasEol]
  | char d => by_cases hd : d = c <;> simp [deriv, hd, hasEol]
  | cls k => by_cases hk : k.test c <;> simp [deriv, hk, hasEol]
  | seq r1 r2 ih1 ih2 =>
      simp only [hasEol, Bool.or_eq_false_iff] at h
      by_cases hn : nul false r1 <;>
        simp [deriv, hasEol, hn, ih1 h.1, ih2 h.2, h.2, h.1]
  | alt r1 r2 ih1 ih2 =>
      simp only [hasEol, Bool.or_eq_false_iff] at h
      simp [deriv, hasEol, ih1 h.1, ih2 h.2]
  | star r1 ih => simp only [hasEol] at h; simp [deriv, hasEol, ih h, h]
  | eol => simp [deriv, hasEol]

theorem nul_of_no_eol {r : Regex} (h : hasEol r = false) (b b' : Bool) :
    nul b r = nul b' r := by
  induction r with
  | void => simp [nul]
  | eps => simp [nul]
  | char c => simp [nul]
  | cls k => simp [nul]
  | seq r1 r2 ih1 ih2 =>
      simp only [hasEol, Bool.or_eq_false_iff] at h
      simp [nul, ih1 h.1, ih2 h.2]
  | alt r1 r2 ih1 ih2 =>
      simp only [hasEol, Bool.or_eq_false_iff] at h
      simp [nul, ih1 h.1, ih2 h.2]
  | star r1 ih => simp [nul]
  | eol => simp [hasEol] at h

/-- Prefix semantics of `re.match`, made explicit: a regex that does not use
the `$` anchor and accepts the subject `s` also accepts `s` extended by any
trailing content `t`. -/
theorem pmatch_append_of_no_eol {r : Regex} {s t : List Char}
    (h : hasEol r = false) (hm : pmatch r s = true) :
    pmatch r (s ++ t) = true := by
  induction s generalizing r with
  | nil =>
      simp only [pmatch] at hm
      have : nul false r = true := (nul_of_no_eol h false true).trans hm
      simpa using pmatch_of_nul this t
  | cons c s ih =>
      simp only [pmatch, Bool.or_eq_true] at hm
      rcases hm with hm | hm
      · simpa using pmatch_of_nul hm (c :: (s ++ t))
      · have := ih (hasEol_deriv h c) hm
        simp [pmatch, this]

theorem lexLe_total (xs ys : List Char) : lexLe xs ys = true ∨ lexLe ys xs = true := by
  induction xs generalizing ys with
  | nil => left; rfl
  | cons c cs ih =>
      cases ys with
      | nil => right; rfl
      | cons d ds =>
          rcases Nat.lt_trichotomy c.toNat d.toNat with h | h | h
          · left; simp [lexLe, h]
          · rcases ih ds with h' | h'
            · left; simp [lexLe, h, Nat.lt_irrefl, h']
            · right; simp [lexLe, h.symm, Nat.lt_irrefl, h']
          · right; simp [lexLe, h]

theorem lexLe_trans {xs ys zs : List Char} (h1 : lexLe xs ys = true)
    (h2 : lexLe ys zs = true) : lexLe xs zs = true := by
  induction xs generalizing ys zs with
  | nil => rfl
  | cons c cs ih =>
      cases ys with
      | nil => simp [lexLe] at h1
      | cons d ds =>
          cases zs with
          | nil => simp [lexLe] at h2
          | cons e es =>
              rcases Nat.lt_trichotomy c.toNat d.toNat with hcd | hcd | hcd <;>
                rcases Nat.lt_trichotomy d.toNat e.toNat with hde | hde | hde
              · simp [lexLe, Nat.lt_trans hcd hde]
              · simp [lexLe, show c.toNat < e.toNat from hde ▸ hcd]
              · simp [lexLe, Nat.lt_asymm hde, ne_of_gt hde] at h2
              · simp [lexLe, show c.toNat < e.toNat from hcd ▸ hde]
              · simp [lexLe, hcd, Nat.lt_irrefl] at h1
                simp [lexLe, hde, Nat.lt_irrefl] at h2
                simp [lexLe, hcd.trans hde, Nat.lt_irrefl, ih h1 h2]
              · simp [lexLe, Nat.lt_asymm hde, ne_of_gt hde] at h2
              · simp [lexLe, Nat.lt_asymm hcd, ne_of_gt hcd] at h1
              · simp [lexLe, Nat.lt_asymm hcd, ne_of_gt hcd] at h1
              · simp [lexLe, Nat.lt_asymm hcd, ne_of_gt hcd] at h1

theorem mem_distinctFirst {u : String} {xs : List String} :
    u ∈ distinctFirst xs ↔ u ∈ xs := by
  induction xs with
  | nil => simp [distinctFirst]
  | cons x xs ih =>
      simp only [distinctFirst, List.mem_cons, List.mem_filter, Bool.not_eq_eq_eq_not,
        Bool.not_true, decide_eq_false_iff_not]
      constructor
      · rintro (rfl | ⟨h, _⟩)
        · exact Or.inl rfl
        · exact Or.inr (ih.mp h)
      · rintro (rfl | h)
        · exact Or.inl rfl
        · by_cases hx : u = x
          · exact Or.inl hx
          · exact Or.inr ⟨ih.mpr h, hx⟩

theorem nodup_distinctFirst (xs : List String) : (distinctFirst xs).Nodup := by
  induction xs with
  | nil => simp [distinctFirst]
  | cons x xs ih =>
      simp only [distinctFirst, List.nodup_cons]
      refine ⟨fun hmem => ?_, ih.filter _⟩
      rcases List.mem_filter.mp hmem with ⟨-, hne⟩
      simp at hne

theorem idxOfStr_lt_length {u : String} {l : List String} (h : u ∈ l) :
    idxOfStr l u < l.length := by
  induction l with
  | nil => cases h
  | cons v vs ih =>
      by_cases hv : v = u
      · simp [idxOfStr, hv]
      · rcases List.mem_cons.mp h with rfl | h
        · exact absurd rfl hv
        · simpa [idxOfStr, hv, Nat.succ_lt_succ_iff] using ih h

theorem getD_idxOfStr {u : String} {l : List String} (h : u ∈ l) :
    l.getD (idxOfStr l u) "" = u := by
  induction l with
  | nil => cases h
  | cons v vs ih =>
      by_cases hv : v = u
      · simp [idxOfStr, hv]
      · rcases List.mem_cons.mp h with rfl | h
        · exact absurd rfl hv
        · simpa [idxOfStr, hv] using ih h

theorem idxOfStr_inj {u v : String} {l : List String} (hu : u ∈ l) (hv : v ∈ l)
    (h : idxOfStr l u = idxOfStr l v) : u = v := by
  have := getD_idxOfStr hu
  rw [h, getD_idxOfStr hv] at this
  exact this.symm

theorem idxOfStr_getD {l : List String} (hnd : l.Nodup) {i : Nat} (hi : i < l.length) :
    idxOfStr l (l.getD i "") = i := by
  induction l generalizing i with
  | nil => simp at hi
  | cons v vs ih =>
      rcases List.nodup_cons.mp hnd with ⟨hv, hnd'⟩
      cases i with
      | zero => simp [idxOfStr]
      | succ i =>
          have hi' : i < vs.length := by simpa [Nat.succ_lt_succ_iff] using hi
          have hmem : vs.getD i "" ∈ vs := by
            rw [List.getD_eq_getElem _ _ hi']; exact List.getElem_mem hi'
          have hne : ¬ v = vs.getD i "" := fun e => hv (e ▸ hmem)
          rw [List.getD_cons_succ]
          simp only [idxOfStr]
          rw [if_neg hne, ih hnd' hi']

theorem sortedUtilities_perm (patterns : List LogPattern) :
    (sortedUtilities patterns).Perm (utilNames patterns) :=
  List.perm_insertionSort StrLe (utilNames patterns)

theorem mem_sortedUtilities {u : String} {patterns : List LogPattern} :
    u ∈ sortedUtilities patterns ↔ u ∈ utilNames patterns :=
  (sortedUtilities_perm patterns).mem_iff

theorem nodup_sortedUtilities (patterns : List LogPattern) :
    (sortedUtilities patterns).Nodup :=
  ((sortedUtilities_perm patterns).symm.nodup (nodup_distinctFirst _))

theorem sorted_sortedUtilities (patterns : List LogPattern) :
    List.Sorted StrLe (sortedUtilities patterns) :=
  @List.sorted_insertionSort String StrLe _
    ⟨fun a b => lexLe_total a.data b.data⟩ ⟨fun _ _ _ => lexLe_trans⟩ (utilNames patterns)

theorem utilityIndex_lt_dimension {u : String} {patterns : List LogPattern}
    (h : u ∈ utilNames patterns) : utilityIndex patterns u < dimension patterns :=
  idxOfStr_lt_length (mem_sortedUtilities.mpr h)

theorem utilityIndex_inj {u v : String} {patterns : List LogPattern}
    (hu : u ∈ utilNames patterns) (hv : v ∈ utilNames patterns)
    (h : utilityIndex patterns u = utilityIndex patterns v) : u = v :=
  idxOfStr_inj (mem_sortedUtilities.mpr hu) (mem_sortedUtilities.mpr hv) h

theorem utilityIndex_surj {patterns : List LogPattern} {i : Nat}
    (hi : i < dimension patterns) :
    ∃ u ∈ utilNames patterns, utilityIndex patterns u = i := by
  refine ⟨(sortedUtilities patterns).getD i "", ?_, ?_⟩
  · rw [List.getD_eq_getElem _ _ hi]
    exact mem_sortedUtilities.mp (List.getElem_mem hi)
  · exact idxOfStr_getD (nodup_sortedUtilities patterns) hi

theorem mem_utilNames {u : String} {patterns : List LogPattern} :
    u ∈ utilNames patterns ↔ ∃ p ∈ patterns, p.utility_name = u := by
  simp [utilNames, mem_distinctFirst]

theorem length_bump (v : List Nat) (i : Nat) : (bump v i).length = v.length := by
  simp [bump]

theorem getD_bump_self {v : List Nat} {i : Nat} (h : i < v.length) :
    (bump v i).getD i 0 = v.getD i 0 + 1 := by
  have h' : i < (bump v i).length := by rw [length_bump]; exact h
  rw [List.getD_eq_getElem _ _ h', List.getD_eq_getElem _ _ h]
  unfold bump
  rw [List.getElem_set, if_pos rfl, List.getD_eq_getElem _ _ h]

theorem getD_bump_ne {v : List Nat} {i j : Nat} (h : i ≠ j) :
    (bump v i).getD j 0 = v.getD j 0 := by
  by_cases hj : j < v.length
  · have hj' : j < (bump v i).length := by rw [length_bump]; exact hj
    rw [List.getD_eq_getElem _ _ hj', List.getD_eq_getElem _ _ hj]
    simp [bump, List.getElem_set, h]
  · have hj1 : v.length ≤ j := Nat.le_of_not_lt hj
    rw [List.getD_eq_default _ _ ((length_bump v i).le.trans hj1),
        List.getD_eq_default _ _ hj1]

theorem getD_replicate_zero (n j : Nat) : (List.replicate n 0).getD j 0 = 0 := by
  by_cases hj : j < n
  · rw [List.getD_eq_getElem _ _ (by simpa using hj)]
    simp
  · rw [List.getD_eq_default _ _ (by simpa using Nat.le_of_not_lt hj)]

theorem errCountLine_eq_zero_or_one (pats : List (RegexSpec × Bool)) (line : String) :
    errCountLine pats line = 0 ∨ errCountLine pats line = 1 := by
  unfold errCountLine
  rcases h : firstMatch pats line with - | ⟨rx, b⟩
  · left; rfl
  · cases b
    · left; rfl
    · right; rfl

theorem groupStep_eq (idx : String → Nat) (line : String) (e : List Nat)
    (g : String × List (RegexSpec × Bool)) :
    groupStep idx line e g =
      if errCountLine g.2 line = 1 then bump e (idx g.1) else e := by
  unfold groupStep errCountLine
  rcases h : firstMatch g.2 line with - | ⟨rx, b⟩
  · rfl
  · cases b <;> rfl

theorem length_groupStep (idx : String → Nat) (line : String) (e : List Nat)
    (g : String × List (RegexSpec × Bool)) :
    (groupStep idx line e g).length = e.length := by
  rw [groupStep_eq]
  split
  · exact length_bump e (idx g.1)
  · rfl

theorem length_foldl_groupStep (idx : String → Nat) (line : String)
    (gs : List (String × List (RegexSpec × Bool))) (e : List Nat) :
    (List.foldl (groupStep idx line) e gs).length = e.length := by
  induction gs generalizing e with
  | nil => rfl
  | cons g gs ih => rw [List.foldl_cons, ih, length_groupStep]

theorem getD_foldl_groupStep_of_ne {idx : String → Nat} {line : String}
    {pf : String → List (RegexSpec × Bool)} {j : Nat} (ns : List String) (e : List Nat)
    (h : ∀ n ∈ ns, idx n ≠ j) :
    (List.foldl (groupStep idx line) e (ns.map (fun n => (n, pf n)))).getD j 0
      = e.getD j 0 := by
  induction ns generalizing e with
  | nil => rfl
  | cons n ns ih =>
      simp only [List.map_cons, List.foldl_cons]
      rw [ih _ (fun m hm => h m (List.mem_cons_of_mem _ hm)), groupStep_eq]
      split
      · exact getD_bump_ne (h n (List.mem_cons_self _ _))
      · rfl

theorem getD_foldl_groupStep {idx : String → Nat} {line : String}
    {pf : String → List (RegexSpec × Bool)} {u : String} (ns : List String) (e : List Nat)
    (hnd : ns.Nodup) (hmem : u ∈ ns)
    (hinj : ∀ n ∈ ns, n ≠ u → idx n ≠ idx u)
    (hlt : idx u < e.length) :
    (List.foldl (groupStep idx line) e (ns.map (fun n => (n, pf n)))).getD (idx u) 0
      = e.getD (idx u) 0 + errCountLine (pf u) line := by
  induction ns generalizing e with
  | nil => cases hmem
  | cons n ns ih =>
      rcases List.nodup_cons.mp hnd with ⟨hn, hnd'⟩
      simp only [List.map_cons, List.foldl_cons]
      by_cases hnu : n = u
      · subst hnu
        have hne : ∀ m ∈ ns, idx m ≠ idx n := fun m hm =>
          hinj m (List.mem_cons_of_mem _ hm) (fun e => hn (e ▸ hm))
        rw [getD_foldl_groupStep_of_ne ns _ hne, groupStep_eq]
        rcases errCountLine_eq_zero_or_one (pf n) line with h0 | h1
        · rw [h0, if_neg (by simp [h0]), Nat.add_zero]
        · rw [if_pos h1, getD_bump_self hlt, h1]
      · have hu' : u ∈ ns := by
          rcases List.mem_cons.mp hmem with rfl | h
          · exact absurd rfl hnu
          · exact h
        have hlen : idx u < (groupStep idx line e (n, pf n)).length := by
          rw [length_groupStep]; exact hlt
        rw [ih _ hnd' hu' (fun m hm => hinj m (List.mem_cons_of_mem _ hm)) hlen,
          groupStep_eq]
        split
        · rw [getD_bump_ne (hinj n (List.mem_cons_self _ _) hnu)]
        · rfl

theorem lineStep_blank {groups : List (String × List (RegexSpec × Bool))}
    {idx : String → Nat} {e : List Nat} {l : String} (h : isBlank l = true) :
    lineStep groups idx e l = e := by
  simp [lineStep, h]

theorem length_lineStep (groups : List (String × List (RegexSpec × Bool)))
    (idx : String → Nat) (e : List Nat) (l : String) :
    (lineStep groups idx e l).length = e.length := by
  unfold lineStep
  split
  · rfl
  · exact length_foldl_groupStep idx l groups e

theorem length_foldl_lineStep (groups : List (String × List (RegexSpec × Bool)))
    (idx : String → Nat) (e : List Nat) (lines : List String) :
    (List.foldl (lineStep groups idx) e lines).length = e.length := by
  induction lines generalizing e with
  | nil => rfl
  | cons l ls ih => rw [List.foldl_cons, ih, length_lineStep]

theorem length_embedLines (patterns : List LogPattern) (lines : List String) :
    (embedLines patterns lines).length = dimension patterns := by
  unfold embedLines
  rw [length_foldl_lineStep, List.length_replicate]

theorem getD_lineStep {patterns : List LogPattern} {line u : String} (e : List Nat)
    (hu : u ∈ utilNames patterns) (hb : isBlank line = false)
    (hlen : e.length = dimension patterns) :
    (lineStep (patternsByUtility patterns) (utilityIndex patterns) e line).getD
        (utilityIndex patterns u) 0
      = e.getD (utilityIndex patterns u) 0 + errCountLine (patternsOf patterns u) line := by
  unfold lineStep patternsByUtility
  rw [if_neg (by simp [hb])]
  exact getD_foldl_groupStep (utilNames patterns) e (nodup_distinctFirst _) hu
    (fun n hn hne h => hne (utilityIndex_inj hn hu h))
    (hlen ▸ utilityIndex_lt_dimension hu)

theorem getD_foldl_lineStep {patterns : List LogPattern} {u : String}
    (lines : List String) (e : List Nat) (hu : u ∈ utilNames patterns)
    (hlen : e.length = dimension patterns) :
    (List.foldl (lineStep (patternsByUtility patterns) (utilityIndex patterns)) e lines).getD
        (utilityIndex patterns u) 0
      = lines.foldl
          (fun n l => if isBlank l then n else n + errCountLine (patternsOf patterns u) l)
          (e.getD (utilityIndex patterns u) 0) := by
  induction lines generalizing e with
  | nil => rfl
  | cons l ls ih =>
      rw [List.foldl_cons, List.foldl_cons,
        ih _ (by rw [length_lineStep]; exact hlen)]
      by_cases hb : isBlank l
      · rw [lineStep_blank hb, if_pos hb]
      · rw [getD_lineStep e hu (by simpa using hb) hlen, if_neg hb]

/-- The coordinate of one utility in the embedding of a list of lines: the
number of its non-blank lines whose first matching pattern of that utility's
group is error-flagged (each such line contributing exactly one). -/
theorem getD_embedLines {patterns : List LogPattern} {u : String}
    (lines : List String) (hu : u ∈ utilNames patterns) :
    (embedLines patterns lines).getD (utilityIndex patterns u) 0
      = lines.foldl
          (fun n l => if isBlank l then n else n + errCountLine (patternsOf patterns u) l)
          0 := by
  unfold embedLines
  rw [getD_foldl_lineStep lines _ hu (List.length_replicate _ _), getD_replicate_zero]

theorem length_addVec {a b : List Nat} (h : a.length = b.length) :
    (addVec a b).length = b.length := by
  simp [addVec, h]

theorem eq_of_getD {a b : List Nat} (hl : a.length = b.length)
    (h : ∀ j, a.getD j 0 = b.getD j 0) : a = b := by
  apply List.ext_getElem hl
  intro n h1 h2
  have hn := h n
  rwa [List.getD_eq_getElem _ _ h1, List.getD_eq_getElem _ _ h2] at hn

theorem getD_addVec {a b : List Nat} (h : a.length = b.length) (j : Nat) :
    (addVec a b).getD j 0 = a.getD j 0 + b.getD j 0 := by
  by_cases hj : j < b.length
  · have hja : j < a.length := h ▸ hj
    have hjab : j < (addVec a b).length := by rw [length_addVec h]; exact hj
    rw [List.getD_eq_getElem _ _ hjab, List.getD_eq_getElem _ _ hja,
      List.getD_eq_getElem _ _ hj]
    simp [addVec]
  · have hj' := Nat.le_of_not_lt hj
    rw [List.getD_eq_default _ _ (by rw [length_addVec h]; exact hj'),
      List.getD_eq_default _ _ (by rw [h]; exact hj'), List.getD_eq_default _ _ hj']

theorem bump_addVec {a b : List Nat} (h : a.length = b.length) (i : Nat) :
    bump (addVec a b) i = addVec a (bump b i) := by
  have hab' : a.length = (bump b i).length := h.trans (length_bump b i).symm
  apply eq_of_getD
  · rw [length_bump, length_addVec h, length_addVec hab', length_bump]
  · intro j
    rw [getD_addVec hab' j]
    by_cases hij : i = j
    · subst hij
      by_cases hi : i < b.length
      · rw [getD_bump_self (by rw [length_addVec h]; exact hi), getD_bump_self hi,
          getD_addVec h]
        omega
      · have hbi : b.length ≤ i := Nat.le_of_not_lt hi
        rw [List.getD_eq_default _ _ (by rw [length_bump, length_addVec h]; exact hbi),
          List.getD_eq_default _ _ (by rw [h]; exact hbi),
          List.getD_eq_default _ _ (by rw [length_bump]; exact hbi)]
    · rw [getD_bump_ne hij, getD_bump_ne hij, getD_addVec h]

theorem groupStep_addVec {idx : String → Nat} {line : String} {a b : List Nat}
    (h : a.length = b.length) (g : String × List (RegexSpec × Bool)) :
    groupStep idx line (addVec a b) g = addVec a (groupStep idx line b g) := by
  rw [groupStep_eq, groupStep_eq]
  split
  · exact bump_addVec h _
  · rfl

theorem foldl_groupStep_addVec {idx : String → Nat} {line : String}
    (gs : List (String × List (RegexSpec × Bool))) {a b : List Nat}
    (h : a.length = b.length) :
    List.foldl (groupStep idx line) (addVec a b) gs
      = addVec a (List.foldl (groupStep idx line) b gs) := by
  induction gs generalizing b with
  | nil => rfl
  | cons g gs ih =>
      rw [List.foldl_cons, List.foldl_cons, groupStep_addVec h,
        ih (by rw [length_groupStep]; exact h)]

theorem lineStep_addVec {groups : List (String × List (RegexSpec × Bool))}
    {idx : String → Nat} {a b : List Nat} (h : a.length = b.length) (l : String) :
    lineStep groups idx (addVec a b) l = addVec a (lineStep groups idx b l) := by
  unfold lineStep
  split
  · rfl
  · exact foldl_groupStep_addVec groups h

theorem foldl_lineStep_addVec {groups : List (String × List (RegexSpec × Bool))}
    {idx : String → Nat} (lines : List String) {a b : List Nat}
    (h : a.length = b.length) :
    List.foldl (lineStep groups idx) (addVec a b) lines
      = addVec a (List.foldl (lineStep groups idx) b lines) := by
  induction lines generalizing b with
  | nil => rfl
  | cons l ls ih =>
      rw [List.foldl_cons, List.foldl_cons, lineStep_addVec h,
        ih (by rw [length_lineStep]; exact h)]

theorem addVec_replicate_zero {a : List Nat} {n : Nat} (h : a.length = n) :
    addVec a (List.replicate n 0) = a := by
  apply List.ext_getElem
  · simp [addVec, h]
  · intro i h1 h2
    have hi : i < n := by simpa [addVec, h] using h1
    simp [addVec, List.getElem_zipWith, List.getElem_replicate]

/-- Additivity of the reducer over concatenation of line lists. -/
theorem embedLines_append (patterns : List LogPattern) (ls1 ls2 : List String) :
    embedLines patterns (ls1 ++ ls2)
      = addVec (embedLines patterns ls1) (embedLines patterns ls2) := by
  unfold embedLines
  rw [List.foldl_append]
  have h1 := length_foldl_lineStep (patternsByUtility patterns) (utilityIndex patterns)
    (List.replicate (dimension patterns) 0) ls1
  rw [List.length_replicate] at h1
  conv_lhs => rw [← addVec_replicate_zero h1]
  rw [foldl_lineStep_addVec _ (by rw [List.length_replicate]; exact h1)]

theorem splitNl_ne_nil (cs : List Char) : splitNl cs ≠ [] := by
  cases cs with
  | nil => simp [splitNl]
  | cons c cs =>
      unfold splitNl
      rcases h : splitNl cs with - | ⟨seg, rest⟩
      · simp
      · by_cases hc : c = '\n' <;> simp [hc]

theorem splitNl_no_newline {cs : List Char} (h : '\n' ∉ cs) : splitNl cs = [cs] := by
  induction cs with
  | nil => rfl
  | cons c cs ih =>
      have hc : ¬ c = '\n' := fun e => h (e ▸ List.mem_cons_self _ _)
      have hcs : '\n' ∉ cs := fun e => h (List.mem_cons_of_mem _ e)
      unfold splitNl
      rw [ih hcs]
      simp [hc]

theorem splitNl_cons (c : Char) (cs : List Char) :
    splitNl (c :: cs) = match splitNl cs with
      | [] => [[]]
      | seg :: rest => if c = '\n' then [] :: seg :: rest else (c :: seg) :: rest := rfl

theorem splitNl_append {xs ys : List Char} (h : '\n' ∉ xs) :
    splitNl (xs ++ '\n' :: ys) = xs :: splitNl ys := by
  induction xs with
  | nil =>
      rw [List.nil_append, splitNl_cons]
      rcases hy : splitNl ys with - | ⟨seg, rest⟩
      · exact absurd hy (splitNl_ne_nil ys)
      · simp
  | cons x xs ih =>
      have hx : ¬ x = '\n' := fun e => h (e ▸ List.mem_cons_self _ _)
      have hxs : '\n' ∉ xs := fun e => h (List.mem_cons_of_mem _ e)
      rw [List.cons_append, splitNl_cons, ih hxs]
      simp [hx]

theorem pySplitlines_cons {a b : String} (h : '\n' ∉ a.data) :
    pySplitlines (a ++ "\n" ++ b) = a :: pySplitlines b := by
  have hdata : (a ++ "\n" ++ b).data = a.data ++ '\n' :: b.data := by
    rw [String.data_append, String.data_append, List.append_assoc]
    rfl
  unfold pySplitlines
  rw [hdata, splitNl_append h]
  rcases hb : splitNl b.data with - | ⟨seg, rest⟩
  · exact absurd hb (splitNl_ne_nil b.data)
  · rw [List.getLast?_cons_cons, List.dropLast_cons₂]
    by_cases hlast : (seg :: rest).getLast? = some []
    · rw [if_pos hlast, if_pos hlast, List.map_cons]
    · rw [if_neg hlast, if_neg hlast, List.map_cons]

theorem pySplitlines_single {a : String} (h : '\n' ∉ a.data) :
    pySplitlines a = if a.data = [] then [] else [a] := by
  unfold pySplitlines
  rw [splitNl_no_newline h]
  by_cases he : a.data = []
  · simp [he]
  · simp only [he, if_neg he, List.getLast?_singleton]
    rw [if_neg (by simpa using he)]
    simp

theorem isBlank_of_empty {l : String} (h : l.data = []) : isBlank l = true := by
  unfold isBlank
  rw [h]
  rfl

theorem foldl_lineStep_splitlines_join {groups : List (String × List (RegexSpec × Bool))}
    {idx : String → Nat} (lines : List String) (e : List Nat)
    (h : ∀ l ∈ lines, '\n' ∉ l.data) :
    List.foldl (lineStep groups idx) e (pySplitlines (joinLines lines))
      = List.foldl (lineStep groups idx) e lines := by
  induction lines generalizing e with
  | nil =>
      show List.foldl _ e (pySplitlines "") = e
      rfl
  | cons l ls ih =>
      cases ls with
      | nil =>
          show List.foldl _ e (pySplitlines l) = lineStep groups idx e l
          rw [pySplitlines_single (h l (List.mem_cons_self _ _))]
          by_cases he : l.data = []
          · rw [if_pos he]
            exact (lineStep_blank (isBlank_of_empty he)).symm
          · rw [if_neg he]
            rfl
      | cons l2 ls2 =>
          show List.foldl _ e (pySplitlines (l ++ "\n" ++ joinLines (l2 :: ls2))) = _
          rw [pySplitlines_cons (h l (List.mem_cons_self _ _)), List.foldl_cons,
            List.foldl_cons]
          exact ih _ (fun m hm => h m (List.mem_cons_of_mem _ hm))

/-- generate_embedding on a newline-joined list of lines is the reducer fold
over those lines. -/
theorem generate_embedding_joinLines (patterns : List LogPattern)
    (lines : List String) (h : ∀ l ∈ lines, '\n' ∉ l.data) :
    generate_embedding patterns (joinLines lines) = embedLines patterns lines :=
  foldl_lineStep_splitlines_join lines _ h

theorem patternsOf_append (ps qs : List LogPattern) (u : String) :
    patternsOf (ps ++ qs) u = patternsOf ps u ++ patternsOf qs u := by
  simp [patternsOf, List.filter_append]

theorem mem_patternsOf {pr : RegexSpec × Bool} {patterns : List LogPattern} {u : String}
    (h : pr ∈ patternsOf patterns u) :
    ∃ p ∈ patterns, p.utility_name = u ∧ pr = (p.regex, p.is_error) := by
  unfold patternsOf at h
  rcases List.mem_map.mp h with ⟨p, hp, rfl⟩
  rcases List.mem_filter.mp hp with ⟨hmem, hname⟩
  exact ⟨p, hmem, by simpa using hname, rfl⟩

theorem patternsOf_eq_nil {patterns : List LogPattern} {u : String}
    (h : u ∉ utilNames patterns) : patternsOf patterns u = [] := by
  rcases hp : patternsOf patterns u with - | ⟨pr, rest⟩
  · rfl
  · exfalso
    rcases mem_patternsOf (hp ▸ List.mem_cons_self pr rest) with ⟨p, hmem, hname, -⟩
    exact h (mem_utilNames.mpr ⟨p, hmem, hname⟩)

theorem errCountLine_all_false {qs : List (RegexSpec × Bool)} {line : String}
    (hq : ∀ pr ∈ qs, pr.2 = false) : errCountLine qs line = 0 := by
  unfold errCountLine
  rcases h : firstMatch qs line with - | ⟨rx, b⟩
  · rfl
  · have : (rx, b).2 = false := hq _ (List.mem_of_find?_eq_some h)
    simp at this
    rw [this]

theorem errCountLine_append_false {ps qs : List (RegexSpec × Bool)} {line : String}
    (hq : ∀ pr ∈ qs, pr.2 = false) :
    errCountLine (ps ++ qs) line = errCountLine ps line := by
  unfold errCountLine firstMatch
  rw [List.find?_append]
  rcases h : List.find? _ ps with - | pr
  · rw [Option.none_or]
    have h0 : errCountLine qs line = 0 := errCountLine_all_false hq
    unfold errCountLine firstMatch at h0
    rcases hq' : List.find? _ qs with - | ⟨rx, b⟩
    · rfl
    · rw [hq'] at h0
      cases b
      · rfl
      · simp at h0
  · rfl

theorem mem_utilNames_append_left {u : String} {ps qs : List LogPattern}
    (h : u ∈ utilNames ps) : u ∈ utilNames (ps ++ qs) := by
  rcases mem_utilNames.mp h with ⟨p, hp, hname⟩
  exact mem_utilNames.mpr ⟨p, List.mem_append_left _ hp, hname⟩

theorem parse_line_eq_find? (line : String) (ps : List LogPattern) :
    parse_line line ps = (ps.find? (fun p => p.matches line), []) := by
  induction ps with
  | nil => rfl
  | cons p ps ih =>
      by_cases h : p.matches line <;>
        simp [parse_line, matchesPy, List.find?, h, ih]

theorem generate_embedding_single {patterns : List LogPattern} {l : String}
    (h : '\n' ∉ l.data) :
    generate_embedding patterns l = embedLines patterns [l] := by
  unfold generate_embedding
  rw [pySplitlines_single h]
  by_cases he : l.data = []
  · rw [if_pos he]
    show embedLines patterns [] = embedLines patterns [l]
    unfold embedLines
    rw [List.foldl_cons, List.foldl_nil, List.foldl_nil,
      lineStep_blank (isBlank_of_empty he)]
  · rw [if_neg he]

theorem embedLines_eq_foldl_addVec (patterns : List LogPattern) (lines : List String) :
    embedLines patterns lines
      = lines.foldl (fun acc l => addVec acc (embedLines patterns [l]))
          (List.replicate (dimension patterns) 0) := by
  induction lines using List.reverseRecOn with
  | nil => rfl
  | append_singleton ls l ih =>
      rw [embedLines_append, List.foldl_append, List.foldl_cons, List.foldl_nil, ih]

theorem foldl_lineStep_blanks {groups : List (String × List (RegexSpec × Bool))}
    {idx : String → Nat} (blanks : List String) (e : List Nat)
    (hb : ∀ b ∈ blanks, isBlank b = true) :
    List.foldl (lineStep groups idx) e blanks = e := by
  induction blanks generalizing e with
  | nil => rfl
  | cons b bs ih =>
      rw [List.foldl_cons, lineStep_blank (hb b (List.mem_cons_self _ _)),
        ih _ (fun m hm => hb m (List.mem_cons_of_mem _ hm))]

theorem embedLines_blank_middle (patterns : List LogPattern) (xs blanks ys : List String)
    (hb : ∀ b ∈ blanks, isBlank b = true) :
    embedLines patterns (xs ++ blanks ++ ys) = embedLines patterns (xs ++ ys) := by
  unfold embedLines
  rw [List.foldl_append, List.foldl_append, List.foldl_append,
    foldl_lineStep_blanks blanks _ hb]

theorem foldl_if_zero (lines : List String) (acc : Nat) :
    lines.foldl (fun n l => if isBlank l then n else n + 0) acc = acc := by
  induction lines generalizing acc with
  | nil => rfl
  | cons l ls ih =>
      rw [List.foldl_cons]
      by_cases hb : isBlank l
      · rw [if_pos hb, ih]
      · rw [if_neg hb, Nat.add_zero, ih]

/-! ### The claims -/

/-- C1: for every log (as a list of lines) and every utility of the snapshot,
the utility's coordinate of the embedding accumulates, over the non-blank
lines, exactly one increment per line whose first matching pattern within
that utility's own group (first-match-wins inside the group only, see
errCountLine and firstMatch) is error-flagged.  The coordinate of each
utility depends only on that utility's own pattern group, so a line matching
error patterns of several distinct utilities increments every one of those
utilities' coordinates: there is no global first-match-wins across
utilities. -/
theorem C1_per_utility_counts (patterns : List LogPattern) (lines : List String)
    (u : String) (hu : u ∈ utilNames patterns) :
    (embedLines patterns lines).getD (utilityIndex patterns u) 0
      = lines.foldl
          (fun n l => if isBlank l then n else n + errCountLine (patternsOf patterns u) l)
          0 :=
  getD_embedLines lines hu

/-- Witness for C1: the single line "alphabet" matches error patterns of the
two distinct utilities alpha and beta, and both coordinates are
incremented. -/
theorem C1_per_utility_counts_witness :
    "alpha" ∈ utilNames twoUtilityPatterns ∧ "beta" ∈ utilNames twoUtilityPatterns ∧
    (embedLines twoUtilityPatterns ["alphabet"]).getD
      (utilityIndex twoUtilityPatterns "alpha") 0 = 1 ∧
    (embedLines twoUtilityPatterns ["alphabet"]).getD
      (utilityIndex twoUtilityPatterns "beta") 0 = 1 ∧
    embedLines twoUtilityPatterns ["alphabet"] = [1, 1] := by
  refine ⟨by decide, by decide, ?_, ?_, by decide⟩
  · rw [C1_per_utility_counts twoUtilityPatterns ["alphabet"] "alpha" (by decide)]
    decide
  · rw [C1_per_utility_counts twoUtilityPatterns ["alphabet"] "beta" (by decide)]
    decide

/-- C5: for every Pattern Set snapshot, the Utility Index lists the distinct
utility names in lexicographically sorted order and maps them bijectively
onto the coordinates 0..N-1, the dimension N being the number of distinct
utility names. -/
theorem C5_utility_index_bijection (patterns : List LogPattern) :
    List.Sorted StrLe (sortedUtilities patterns) ∧
    (∀ u, u ∈ sortedUtilities patterns ↔ ∃ p ∈ patterns, p.utility_name = u) ∧
    dimension patterns = (utilNames patterns).length ∧
    (∀ u ∈ utilNames patterns, utilityIndex patterns u < dimension patterns) ∧
    (∀ u ∈ utilNames patterns, ∀ v ∈ utilNames patterns,
      utilityIndex patterns u = utilityIndex patterns v → u = v) ∧
    (∀ i, i < dimension patterns → ∃ u ∈ utilNames patterns, utilityIndex patterns u = i) := by
  refine ⟨sorted_sortedUtilities patterns, ?_, ?_, ?_, ?_, ?_⟩
  · intro u
    rw [mem_sortedUtilities, mem_utilNames]
  · exact (sortedUtilities_perm patterns).length_eq
  · exact fun u hu => utilityIndex_lt_dimension hu
  · exact fun u hu v hv h => utilityIndex_inj hu hv h
  · exact fun i hi => utilityIndex_surj hi

/-- Witness for C5: the pattern set with utilities {gcc, make, npm} yields
the alphabetical index gcc 0, make 1, npm 2 and dimension 3. -/
theorem C5_utility_index_bijection_witness :
    "gcc" ∈ utilNames gmnPatterns ∧
    utilityIndex gmnPatterns "gcc" < dimension gmnPatterns ∧
    utilityIndex gmnPatterns "gcc" = 0 ∧ utilityIndex gmnPatterns "make" = 1 ∧
    utilityIndex gmnPatterns "npm" = 2 ∧ dimension gmnPatterns = 3 :=
  ⟨by decide, (C5_utility_index_bijection gmnPatterns).2.2.2.1 "gcc" (by decide),
   by decide, by decide, by decide, by decide⟩

/-- C6: for a fixed Pattern Set snapshot, reduce applied to the
newline-concatenation of lines L1,...,Ln equals the coordinate-wise sum of
reduce applied to each single-line log [Li], and every coordinate of the
result is non-negative (the counts are natural numbers). -/
theorem C6_additivity (patterns : List LogPattern) (lines : List String)
    (h : ∀ l ∈ lines, '\n' ∉ l.data) :
    generate_embedding patterns (joinLines lines)
      = (lines.map (fun l => generate_embedding patterns l)).foldl addVec
          (List.replicate (dimension patterns) 0) ∧
    ∀ i, 0 ≤ (generate_embedding patterns (joinLines lines)).getD i 0 := by
  constructor
  · rw [generate_embedding_joinLines patterns lines h,
      List.map_congr_left (fun l hl => generate_embedding_single (h l hl)),
      List.foldl_map]
    exact embedLines_eq_foldl_addVec patterns lines
  · intro i
    exact Nat.zero_le _

/-- Witness for C6 on a three-line log (including a blank line). -/
theorem C6_additivity_witness :
    (∀ l ∈ ["alphabet", "", "alpine"], '\n' ∉ l.data) ∧
    (generate_embedding twoUtilityPatterns (joinLines ["alphabet", "", "alpine"])
        = ((["alphabet", "", "alpine"].map
              (fun l => generate_embedding twoUtilityPatterns l)).foldl addVec
            (List.replicate (dimension twoUtilityPatterns) 0)) ∧
      ∀ i, 0 ≤ (generate_embedding twoUtilityPatterns
          (joinLines ["alphabet", "", "alpine"])).getD i 0) :=
  ⟨by decide, C6_additivity twoUtilityPatterns ["alphabet", "", "alpine"] (by decide)⟩

/-- C7: lines that are blank after trimming whitespace are skipped entirely
(see lineStep, which returns the vector unchanged on a blank line), so
inserting or removing blank lines between the real lines of a log never
changes the embedding. -/
theorem C7_blank_line_invariance (patterns : List LogPattern)
    (xs blanks ys : List String)
    (hb : ∀ b ∈ blanks, isBlank b = true)
    (hx : ∀ l ∈ xs, '\n' ∉ l.data) (hbl : ∀ l ∈ blanks, '\n' ∉ l.data)
    (hy : ∀ l ∈ ys, '\n' ∉ l.data) :
    generate_embedding patterns (joinLines (xs ++ blanks ++ ys))
      = generate_embedding patterns (joinLines (xs ++ ys)) := by
  have hall1 : ∀ l ∈ xs ++ blanks ++ ys, '\n' ∉ l.data := by
    intro l hl
    rcases List.mem_append.mp hl with hl1 | hl2
    · rcases List.mem_append.mp hl1 with hlx | hlb
      · exact hx l hlx
      · exact hbl l hlb
    · exact hy l hl2
  have hall2 : ∀ l ∈ xs ++ ys, '\n' ∉ l.data := by
    intro l hl
    rcases List.mem_append.mp hl with hl1 | hl2
    · exact hx l hl1
    · exact hy l hl2
  rw [generate_embedding_joinLines patterns _ hall1,
    generate_embedding_joinLines patterns _ hall2,
    embedLines_blank_middle patterns xs blanks ys hb]

/-- Witness for C7: inserting the blank lines "" and "  " between two real
lines leaves the embedding unchanged. -/
theorem C7_blank_line_invariance_witness :
    (∀ b ∈ ["", "  "], isBlank b = true) ∧
    generate_embedding twoUtilityPatterns (joinLines (["alphabet"] ++ ["", "  "] ++ ["alpine"]))
      = generate_embedding twoUtilityPatterns (joinLines (["alphabet"] ++ ["alpine"])) :=
  ⟨by decide,
   C7_blank_line_invariance twoUtilityPatterns ["alphabet"] ["", "  "] ["alpine"]
     (by decide) (by decide) (by decide) (by decide)⟩

/-- C3: matches tests the line from its start with prefix semantics:
a regex not using the `$` anchor that accepts a subject also accepts the
subject extended by arbitrary trailing content, while a line carrying a
prefix not covered by the regex does not match even though the regex matches
a suffix of it.  On the spec §8 scenario, the syslog-prefixed line does not
match the userdel pattern, the second line matches the build pattern, and the
embedding over index (build 0, userdel 1) is [0, 0]. -/
theorem C3_match_from_start (r : Regex) (s t : List Char)
    (hEol : hasEol r = false) (hm : pmatch r s = true) :
    pmatch r (s ++ t) = true ∧
    userdelPattern.matches scenarioLine1 = false ∧
    userdelPattern.matches "userdel[616177]: delete user \x27rooter\x27" = true ∧
    buildPattern.matches scenarioLine2 = true ∧
    buildPattern.is_error = false ∧
    dimension scenarioPatterns = 2 ∧
    utilityIndex scenarioPatterns "build" = 0 ∧
    utilityIndex scenarioPatterns "userdel" = 1 ∧
    generate_embedding scenarioPatterns scenarioLog = [0, 0] :=
  ⟨pmatch_append_of_no_eol hEol hm, by decide, by decide, by decide, by decide,
   by decide, by decide, by decide, by decide⟩

/-- Witness for C3 at a concrete anchor-free regex: "userdel[" accepts the
subject "userdel[616" carrying extra trailing content. -/
theorem C3_match_from_start_witness :
    hasEol (rstr "userdel[") = false ∧
    pmatch (rstr "userdel[") "userdel[".data = true ∧
    (pmatch (rstr "userdel[") ("userdel[".data ++ "616".data) = true ∧
      userdelPattern.matches scenarioLine1 = false ∧
      userdelPattern.matches "userdel[616177]: delete user \x27rooter\x27" = true ∧
      buildPattern.matches scenarioLine2 = true ∧
      buildPattern.is_error = false ∧
      dimension scenarioPatterns = 2 ∧
      utilityIndex scenarioPatterns "build" = 0 ∧
      utilityIndex scenarioPatterns "userdel" = 1 ∧
      generate_embedding scenarioPatterns scenarioLog = [0, 0]) :=
  ⟨by decide, by decide,
   C3_match_from_start (rstr "userdel[") "userdel[".data "616".data (by decide) (by decide)⟩

/-- C2: classify (the value parse_line returns) iterates the snapshot in
store order and returns the first pattern whose matches succeeds, or nothing
when none matches; when the snapshot is stored in increasing id order (the
store lists patterns in insertion order), any matching pattern returned has
an id no greater than that of every matching pattern, so of two matching
patterns the one persisted earlier always wins. -/
theorem C2_first_match_wins (line : String) (patterns : List LogPattern)
    (hsort : patterns.Pairwise (fun p q => p.id < q.id)) :
    ((∀ p ∈ patterns, p.matches line = false) ↔ classify line patterns = none) ∧
    (∀ q, classify line patterns = some q →
      q ∈ patterns ∧ q.matches line = true ∧
      ∃ ps1 ps2, patterns = ps1 ++ q :: ps2 ∧ ∀ p ∈ ps1, p.matches line = false) ∧
    (∀ p ∈ patterns, p.matches line = true →
      ∃ q, classify line patterns = some q ∧ q.matches line = true ∧ q.id ≤ p.id) := by
  have hc : classify line patterns = patterns.find? (fun p => p.matches line) := by
    unfold classify
    rw [parse_line_eq_find?]
  refine ⟨?_, ?_, ?_⟩
  · constructor
    · intro hall
      rw [hc]
      exact List.find?_eq_none.mpr (fun x hx => by simp [hall x hx])
    · intro hnone p hp
      rw [hc] at hnone
      simpa using List.find?_eq_none.mp hnone p hp
  · intro q hq
    rw [hc] at hq
    rcases List.find?_eq_some.mp hq with ⟨hmatch, ps1, ps2, hEq, hprev⟩
    refine ⟨hEq ▸ List.mem_append_right _ (List.mem_cons_self _ _), hmatch,
      ps1, ps2, hEq, ?_⟩
    intro p hp
    simpa using hprev p hp
  · intro p hp hm
    rcases hfind : patterns.find? (fun p => p.matches line) with - | q
    · exact absurd hm (by simpa using List.find?_eq_none.mp hfind p hp)
    · rcases List.find?_eq_some.mp hfind with ⟨hqm, ps1, ps2, hEq, hprev⟩
      refine ⟨q, by rw [hc, hfind], hqm, ?_⟩
      subst hEq
      rcases List.mem_append.mp hp with hp1 | hp2
      · exact absurd hm (by simpa using hprev p hp1)
      · rcases List.mem_cons.mp hp2 with rfl | hp3
        · exact Nat.le_refl _
        · rcases List.pairwise_append.mp hsort with ⟨-, hqs, -⟩
          exact Nat.le_of_lt ((List.pairwise_cons.mp hqs).1 p hp3)

/-- Witness for C2: both stored patterns match "alphabet"; classify returns
the head of the snapshot, the one with the lower id. -/
theorem C2_first_match_wins_witness :
    overlapPatterns.Pairwise (fun p q => p.id < q.id) ∧
    classify "alphabet" overlapPatterns = overlapPatterns.head? ∧
    (((∀ p ∈ overlapPatterns, p.matches "alphabet" = false) ↔
        classify "alphabet" overlapPatterns = none) ∧
      (∀ q, classify "alphabet" overlapPatterns = some q →
        q ∈ overlapPatterns ∧ q.matches "alphabet" = true ∧
        ∃ ps1 ps2, overlapPatterns = ps1 ++ q :: ps2 ∧
          ∀ p ∈ ps1, p.matches "alphabet" = false) ∧
      (∀ p ∈ overlapPatterns, p.matches "alphabet" = true →
        ∃ q, classify "alphabet" overlapPatterns = some q ∧
          q.matches "alphabet" = true ∧ q.id ≤ p.id)) :=
  ⟨by decide, by decide, C2_first_match_wins "alphabet" overlapPatterns (by decide)⟩

/-- C4 counterexample: at the concrete invalid pattern badPattern and line
"boom", matches returns false and classification proceeds to the next
pattern, but no warning is emitted: matches catches re.error internally
(log_patterns.py lines 17-20), so the warning print in the except branch of
parse_line (add_pattern.py line 41) is unreachable, and the warning list is
empty instead of naming the offending pattern as the claim states. -/
theorem C4_counterexample :
    badPattern.regex.compiled = none ∧
    badPattern.matches "boom" = false ∧
    (parse_line "boom" [badPattern, boomPattern]).1 = some boomPattern ∧
    (parse_line "boom" [badPattern]).2 = [] ∧
    ¬ invalidWarning badPattern ∈ (parse_line "boom" [badPattern]).2 := by decide

/-- C4 (amended): for every pattern whose regex fails to compile and every
line, matches returns false without crashing, and iteration over the Pattern
Set continues with the next pattern, both in parse_line and in the reducer's
per-group scan; no warning is reported, because matches swallows the
re.error internally and parse_line's except branch (its only warning site)
never fires. -/
theorem C4_invalid_regex_fail_soft (p : LogPattern) (line : String)
    (rest : List LogPattern) (b : Bool) (prs : List (RegexSpec × Bool))
    (h : p.regex.compiled = none) :
    p.matches line = false ∧
    parse_line line (p :: rest) = parse_line line rest ∧
    firstMatch ((p.regex, b) :: prs) line = firstMatch prs line := by
  have hm : p.matches line = false := by
    unfold LogPattern.matches reMatchPy
    rw [h]
  refine ⟨hm, ?_, ?_⟩
  · rw [parse_line_eq_find?, parse_line_eq_find?,
      List.find?_cons_of_neg _ (by simp [hm])]
  · unfold firstMatch
    rw [List.find?_cons_of_neg _ (by simp [reMatchPy, h])]

/-- Witness for C4 (amended) at badPattern followed by a matching pattern. -/
theorem C4_invalid_regex_fail_soft_witness :
    badPattern.regex.compiled = none ∧
    (badPattern.matches "boom" = false ∧
      parse_line "boom" [badPattern, boomPattern] = parse_line "boom" [boomPattern] ∧
      firstMatch [(badPattern.regex, true), (boomPattern.regex, false)] "boom"
        = firstMatch [(boomPattern.regex, false)] "boom") :=
  ⟨by decide,
   C4_invalid_regex_fail_soft badPattern "boom" [boomPattern] true
     [(boomPattern.regex, false)] (by decide)⟩

/-- C8 counterexample: a first proposal of the regex "^boom$" in a fresh
session creates pattern id 0; the second identical proposal writes nothing to
the store, but it also returns NO id at all (the code only prints a skip
message and binds nothing, llm_parser.py lines 206-207), rather than
returning the existing pattern id 0 as the claim states. -/
theorem C8_counterexample :
    (register_pattern emptySession rxBoom "boom" false).2 = some 0 ∧
    (register_pattern (register_pattern emptySession rxBoom "boom" false).1
        rxBoom "boom" false).2 = none ∧
    (register_pattern (register_pattern emptySession rxBoom "boom" false).1
        rxBoom "boom" false).1.store
      = (register_pattern emptySession rxBoom "boom" false).1.store ∧
    (register_pattern emptySession rxBoom "boom" false).1.store.length = 1 := by decide

/-- C8 (amended): within one ingestion session, proposing a regex string
identical to one already proposed is treated as a duplicate and skipped:
exactly one pattern is created by the first proposal, and the second
proposal performs no store write and yields no pattern id (the code prints a
skip message; it does not return the existing id). -/
theorem C8_duplicate_proposal_skipped (s : Session) (rx : RegexSpec)
    (u1 u2 : String) (b1 b2 : Bool) (h : rx.src ∉ s.new_patterns) :
    (register_pattern s rx u1 b1).2 = some s.nextId ∧
    (register_pattern s rx u1 b1).1.store = s.store ++
      [{ id := s.nextId, regex := rx, utility_name := u1, is_error := b1,
         need_reviewing := true }] ∧
    register_pattern (register_pattern s rx u1 b1).1 rx u2 b2
      = ((register_pattern s rx u1 b1).1, none) ∧
    (∀ s' : Session, rx.src ∈ s'.new_patterns →
      register_pattern s' rx u2 b2 = (s', none)) := by
  have hskip : ∀ s' : Session, rx.src ∈ s'.new_patterns →
      register_pattern s' rx u2 b2 = (s', none) := by
    intro s' hs'
    unfold register_pattern
    rw [if_pos hs']
  have hs1 : (register_pattern s rx u1 b1).1.new_patterns
      = rx.src :: s.new_patterns := by
    unfold register_pattern update_patterns
    rw [if_neg h]
  refine ⟨?_, ?_, hskip _ (by rw [hs1]; exact List.mem_cons_self _ _), hskip⟩
  · unfold register_pattern update_patterns
    rw [if_neg h]
  · unfold register_pattern update_patterns
    rw [if_neg h]

/-- Witness for C8 (amended) in the fresh session. -/
theorem C8_duplicate_proposal_skipped_witness :
    rxBoom.src ∉ emptySession.new_patterns ∧
    ((register_pattern emptySession rxBoom "boom" false).2 = some emptySession.nextId ∧
      (register_pattern emptySession rxBoom "boom" false).1.store = emptySession.store ++
        [{ id := emptySession.nextId, regex := rxBoom, utility_name := "boom",
           is_error := false, need_reviewing := true }] ∧
      register_pattern (register_pattern emptySession rxBoom "boom" false).1
          rxBoom "util2" true
        = ((register_pattern emptySession rxBoom "boom" false).1, none) ∧
      (∀ s' : Session, rxBoom.src ∈ s'.new_patterns →
        register_pattern s' rxBoom "util2" true = (s', none))) :=
  ⟨by decide,
   C8_duplicate_proposal_skipped emptySession rxBoom "boom" "util2" false true (by decide)⟩

/-- C9: a proposed triple whose regex string fails to compile yields the
failure result and no write to the pattern store occurs: validate_regex
rejects it, analyze_line_with_llm returns nothing (the re.error is caught at
llm_parser.py lines 143-145, modelling IngestError::InvalidRegex), and the
per-line processing step leaves the session state, in particular the store,
unchanged. -/
theorem C9_invalid_regex_no_store_write (s : Session) (line : String)
    (sug : RegexSpec × String) (h : sug.1.compiled = none) :
    validate_regex sug.1 line = false ∧
    analyze_line_with_llm sug line = none ∧
    process_line s line sug = (s, none) ∧
    (process_line s line sug).1.store = s.store := by
  have ha : analyze_line_with_llm sug line = none := by
    unfold analyze_line_with_llm
    rw [h]
  have hproc : process_line s line sug = (s, none) := by
    unfold process_line
    rcases hp : (parse_line line s.cache).1 with - | q
    · rw [ha]
    · rfl
  refine ⟨?_, ha, hproc, by rw [hproc]⟩
  unfold validate_regex
  rw [h]

/-- Witness for C9 at the invalid proposal "(unclosed". -/
theorem C9_invalid_regex_no_store_write_witness :
    rxUnclosed.compiled = none ∧
    (validate_regex rxUnclosed "boom" = false ∧
      analyze_line_with_llm (rxUnclosed, "gcc") "boom" = none ∧
      process_line emptySession "boom" (rxUnclosed, "gcc") = (emptySession, none) ∧
      (process_line emptySession "boom" (rxUnclosed, "gcc")).1.store
        = emptySession.store) :=
  ⟨by decide, C9_invalid_regex_no_store_write emptySession "boom" (rxUnclosed, "gcc")
    (by decide)⟩

/-- C10: analyze_line_with_llm hard-codes the error flag of every validated
oracle suggestion to False (llm_parser.py line 133), so every pattern
ingested through the oracle path carries is_error = false; consequently,
appending such patterns to a snapshot changes no existing utility's error
count in any embedding, and a utility introduced only by such patterns gets
count 0 — the oracle-created patterns never increment any coordinate. -/
theorem C10_oracle_flag_and_no_increment (sug : RegexSpec × String) (line : String)
    (patterns extra : List LogPattern) (lines : List String)
    (hextra : ∀ p ∈ extra, p.is_error = false) :
    (∀ rx un b, analyze_line_with_llm sug line = some (rx, un, b) → b = false) ∧
    (∀ u ∈ utilNames patterns,
      (embedLines (patterns ++ extra) lines).getD (utilityIndex (patterns ++ extra) u) 0
        = (embedLines patterns lines).getD (utilityIndex patterns u) 0) ∧
    (∀ u ∈ utilNames (patterns ++ extra), u ∉ utilNames patterns →
      (embedLines (patterns ++ extra) lines).getD
        (utilityIndex (patterns ++ extra) u) 0 = 0) := by
  have hq : ∀ u : String, ∀ pr ∈ patternsOf extra u, pr.2 = false := by
    intro u pr hpr
    rcases mem_patternsOf hpr with ⟨p, hp, -, rfl⟩
    exact hextra p hp
  refine ⟨?_, ?_, ?_⟩
  · intro rx un b hres
    rcases hcomp : sug.1.compiled with - | r
    · have heq : analyze_line_with_llm sug line = none := by
        unfold analyze_line_with_llm
        rw [hcomp]
      rw [heq] at hres
      cases hres
    · have heq : analyze_line_with_llm sug line
          = if pmatch r line.data then some (sug.1, sug.2, false) else none := by
        unfold analyze_line_with_llm
        rw [hcomp]
      rw [heq] at hres
      by_cases hpm : pmatch r line.data
      · rw [if_pos hpm] at hres
        cases hres
        rfl
      · rw [if_neg hpm] at hres
        cases hres
  · intro u hu
    rw [getD_embedLines lines (mem_utilNames_append_left hu), getD_embedLines lines hu]
    have hfun : (fun n l => if isBlank l then n
          else n + errCountLine (patternsOf (patterns ++ extra) u) l)
        = (fun n l => if isBlank l then n else n + errCountLine (patternsOf patterns u) l) := by
      funext n l
      rw [patternsOf_append, errCountLine_append_false (hq u)]
    rw [hfun]
  · intro u hu hnu
    rw [getD_embedLines lines hu]
    have hfun : (fun n l => if isBlank l then n
          else n + errCountLine (patternsOf (patterns ++ extra) u) l)
        = (fun n l => if isBlank l then n else n + 0) := by
      funext n l
      rw [patternsOf_append, patternsOf_eq_nil hnu, List.nil_append,
        errCountLine_all_false (hq u)]
    rw [hfun, foldl_if_zero]

/-- Witness for C10: appending the oracle-created pattern (utility "gamma",
is_error false, matching "alphabet") leaves the alpha and beta coordinates
of the embedding of ["alphabet"] unchanged and gives gamma the count 0. -/
theorem C10_oracle_flag_and_no_increment_witness :
    (∀ p ∈ [boomPattern], p.is_error = false) ∧
    ((∀ rx un b,
        analyze_line_with_llm (rxBoom, "boom") "boomline" = some (rx, un, b) →
          b = false) ∧
      (∀ u ∈ utilNames twoUtilityPatterns,
        (embedLines (twoUtilityPatterns ++ [boomPattern]) ["alphabet", "boom"]).getD
            (utilityIndex (twoUtilityPatterns ++ [boomPattern]) u) 0
          = (embedLines twoUtilityPatterns ["alphabet", "boom"]).getD
              (utilityIndex twoUtilityPatterns u) 0) ∧
      (∀ u ∈ utilNames (twoUtilityPatterns ++ [boomPattern]),
        u ∉ utilNames twoUtilityPatterns →
        (embedLines (twoUtilityPatterns ++ [boomPattern]) ["alphabet", "boom"]).getD
          (utilityIndex (twoUtilityPatterns ++ [boomPattern]) u) 0 = 0)) :=
  ⟨by decide,
   C10_oracle_flag_and_no_increment (rxBoom, "boom") "boomline" twoUtilityPatterns
     [boomPattern] ["alphabet", "boom"] (by decide)⟩

end CustomEmbeddings
